import Mathlib

/-!
Verification of the mbed-connector-api request builders against their
natural-language specification.

The embedding covers:
* the JavaScript value model used by the option objects (`JVal`) and the
  deep-merge semantics of the npm `extend` module as called by every
  operation (`extend(true, {}, this.options, options || {})`);
* every operation of `lib/subscriptions.js` and of the endpoint/resource
  request-builder file, each modelled as a function from its arguments to
  the built HTTP request together with the arguments that the
  `makeRequest` completion handler passes to the user callback;
* a heap model of the `extend` module's mutation behaviour (the module
  writes only into its target argument), used for the frame property that
  no operation mutates the instance's stored default options;
* the Pending-Request Correlator of the notification channel, modelled
  from the specification (its source file is not among the provided
  sources).
-/

/-- A generic association-list lookup, used for JavaScript object fields:
`lookupField fields k` is the value of property `k`, or `none` when the
property is absent. -/
def lookupField {α : Type} : List (String × α) → String → Option α
  | [], _ => none
  | (k2, v) :: rest, k => if k2 = k then some v else lookupField rest k

/-- A JavaScript value as it appears in the option objects handled by the
library: `null`, booleans, numbers, strings and plain objects (an object is
its field list). -/
inductive JVal where
  | null : JVal
  | bool : Bool → JVal
  | num : Int → JVal
  | str : String → JVal
  | obj : List (String × JVal) → JVal

/-- Whether a `JVal` is a plain object (the `isPlainObject` test of the
`extend` module, restricted to the values of this model). -/
def JVal.isObj : JVal → Bool
  | .obj _ => true
  | _ => false

/-- JavaScript truthiness of a value, as used by guards such as
`if (options.parameters)` and `if (endpoint.name)`. -/
def JVal.truthy : JVal → Bool
  | .null => false
  | .bool b => b
  | .num n => n ≠ 0
  | .str s => s ≠ ""
  | .obj _ => true

/-- The field list of a value: the fields of an object, and `[]` for any
non-object. -/
def JVal.fields : JVal → List (String × JVal)
  | .obj fs => fs
  | _ => []

/-- Property access `v.k`: `some` the field value on an object that has the
field, `none` (JavaScript `undefined`) otherwise. -/
def JVal.field (v : JVal) (k : String) : Option JVal :=
  lookupField v.fields k

mutual

/-- Value-level deep merge of the npm `extend` module with `deep = true`:
`a.merge b` is the value stored when a property holding `a` is overwritten
by `b` — when both are plain objects their fields are merged recursively,
otherwise `b` replaces `a`. -/
def JVal.merge : JVal → JVal → JVal
  | .obj a, .obj b => .obj (mergeFields a b)
  | _, b => b

/-- Merge the fields of a source object `b` into the fields of a target
object `a`, one source property at a time, exactly as the
`for (name in options)` loop of `extend` does. -/
def mergeFields (a b : List (String × JVal)) : List (String × JVal) :=
  match b with
  | [] => a
  | (k, v) :: rest => mergeFields (setKey a k v) rest

/-- Store property `k := v` into the field list `a`: an existing property
is overwritten in place (deep-merging when both old and new value are
objects), a new property is appended. -/
def setKey (a : List (String × JVal)) (k : String) (v : JVal) :
    List (String × JVal) :=
  match a with
  | [] => [(k, v)]
  | (k2, v2) :: rest =>
      if k2 = k then (k2, JVal.merge v2 v) :: rest
      else (k2, v2) :: setKey rest k v

end

/-- The option-merging step shared by every operation of the library:
`options = extend(true, {}, this.options, options || {})` — a fresh empty
object extended first with the instance options, then with the per-call
options (`{}` when the per-call argument is absent). -/
def extendOptions (thisOpts : List (String × JVal))
    (perCall : Option (List (String × JVal))) : JVal :=
  ((JVal.obj []).merge (JVal.obj thisOpts)).merge
    (match perCall with
     | some fs => JVal.obj fs
     | none => JVal.obj [])

/-- An error delivered by `makeRequest` to a completion handler: the
handlers inspect only its `status` property (`none` models a status-less
error), the remaining error data is kept opaque in `body`. -/
structure HttpError where
  status : Option Int
  body : String
deriving DecidableEq, Repr

/-- A successful `makeRequest` response, of which the handlers use the
`payload` string. -/
structure ResponseData where
  payload : String
deriving DecidableEq, Repr

/-- One argument of a user-callback invocation: the JavaScript `null`,
booleans, strings, string arrays, `JSON.parse` results (kept symbolic as
the parsed payload) and error objects that the handlers pass on. -/
inductive Arg where
  | null : Arg
  | bool : Bool → Arg
  | str : String → Arg
  | strList : List String → Arg
  | json : String → Arg
  | error : HttpError → Arg
deriving DecidableEq, Repr

/-- The request-configuration object handed to `makeRequest`: the url is
kept as the argument list of the `urljoin` call (option lookups may be
`none` when the option is absent). -/
structure Request where
  method : String
  urlParts : List (Option JVal)
  headers : List (String × String)
  qs : Option JVal
  body : Option String
  json : Option JVal

/-- The JavaScript `payload.replace(/\n$/, '')`: remove one trailing
newline character when present. -/
def trimTrailingNewline (s : String) : String :=
  if s.data.getLast? = some '\n' then ⟨s.data.dropLast⟩ else s

/-- Split a character list at every newline character, the direct analogue
of the JavaScript `split(/\n/)`: an empty input yields one empty group. -/
def splitCharList : List Char → List (List Char)
  | [] => [[]]
  | c :: rest =>
      let r := splitCharList rest
      if c = '\n' then [] :: r
      else
        match r with
        | [] => [[c]]
        | g :: gs => (c :: g) :: gs

/-- The JavaScript `s.split(/\n/)` on a string. -/
def splitNewlines (s : String) : List String :=
  (splitCharList s.data).map (fun cs => ⟨cs⟩)

/-- The endpoint-name coercion at the top of the endpoint/resource
operations: `if (typeof endpoint === 'object' && endpoint.name)
endpoint = endpoint.name;`. -/
def endpointName (ep : JVal) : JVal :=
  match ep with
  | .obj fs =>
      match lookupField fs "name" with
      | some v => if v.truthy then v else JVal.obj fs
      | none => JVal.obj fs
  | v => v

/-- An operation is the request it builds together with the completion
handler `makeRequest` invokes: the handler maps the `(error, data)`
completion to the argument list passed to the user callback (the source
guards every invocation with `typeof callback === 'function'`; the list is
the invocation made when a callback was supplied). -/
abbrev Handler := Except HttpError ResponseData → List Arg

/-- The `getResourceSubscription` operation of `lib/subscriptions.js`:
GET `subscriptions/{endpoint}/{resource}`; a 404 completion reports
`(null, false)`, any other error is passed on, success reports
`(null, true)`. -/
def getResourceSubscription (thisOpts : List (String × JVal))
    (endpoint resource : String)
    (perCall : Option (List (String × JVal))) : Request × Handler :=
  let options := extendOptions thisOpts perCall
  ({ method := "GET",
     urlParts := [options.field "host", options.field "restApiVersion",
                  some (JVal.str "subscriptions"), some (JVal.str endpoint),
                  some (JVal.str resource)],
     headers := [], qs := none, body := none, json := none },
   fun result =>
     match result with
     | .error e =>
         if e.status = some 404 then [Arg.null, Arg.bool false]
         else [Arg.error e]
     | .ok _ => [Arg.null, Arg.bool true])

/-- The `putResourceSubscription` operation of `lib/subscriptions.js`:
PUT `subscriptions/{endpoint}/{resource}`; every error is passed on. -/
def putResourceSubscription (thisOpts : List (String × JVal))
    (endpoint resource : String)
    (perCall : Option (List (String × JVal))) : Request × Handler :=
  let options := extendOptions thisOpts perCall
  ({ method := "PUT",
     urlParts := [options.field "host", options.field "restApiVersion",
                  some (JVal.str "subscriptions"), some (JVal.str endpoint),
                  some (JVal.str resource)],
     headers := [("accept", "application/json")],
     qs := none, body := none, json := none },
   fun result =>
     match result with
     | .error e => [Arg.error e]
     | .ok _ => [Arg.null])

/-- The `deleteResourceSubscription` operation of `lib/subscriptions.js`:
DELETE `subscriptions/{endpoint}/{resource}`; an error with a status other
than 404 is passed on, a 404 or a success invokes the callback with no
arguments. -/
def deleteResourceSubscription (thisOpts : List (String × JVal))
    (endpoint resource : String)
    (perCall : Option (List (String × JVal))) : Request × Handler :=
  let options := extendOptions thisOpts perCall
  ({ method := "DELETE",
     urlParts := [options.field "host", options.field "restApiVersion",
                  some (JVal.str "subscriptions"), some (JVal.str endpoint),
                  some (JVal.str resource)],
     headers := [("accept", "application/json")],
     qs := none, body := none, json := none },
   fun result =>
     match result with
     | .error e =>
         if e.status ≠ some 404 then [Arg.error e] else []
     | .ok _ => [])

/-- The `getEndpointSubscriptions` operation of `lib/subscriptions.js`:
GET `subscriptions/{endpoint}` with `accept: text/uri-list`; a 404 reports
`(null, [])`, any other error is passed on, success reports the payload
with one trailing newline trimmed and split at newlines. -/
def getEndpointSubscriptions (thisOpts : List (String × JVal))
    (endpoint : String)
    (perCall : Option (List (String × JVal))) : Request × Handler :=
  let options := extendOptions thisOpts perCall
  ({ method := "GET",
     urlParts := [options.field "host", options.field "restApiVersion",
                  some (JVal.str "subscriptions"), some (JVal.str endpoint)],
     headers := [("accept", "text/uri-list")],
     qs := none, body := none, json := none },
   fun result =>
     match result with
     | .error e =>
         if e.status = some 404 then [Arg.null, Arg.strList []]
         else [Arg.error e]
     | .ok data =>
         [Arg.null, Arg.strList (splitNewlines (trimTrailingNewline data.payload))])

/-- The `deleteEndpointSubscriptions` operation of `lib/subscriptions.js`:
DELETE `subscriptions/{endpoint}`; a 404 reports `(null, false)`, any
other error is passed on, success reports `(null)`. -/
def deleteEndpointSubscriptions (thisOpts : List (String × JVal))
    (endpoint : String)
    (perCall : Option (List (String × JVal))) : Request × Handler :=
  let options := extendOptions thisOpts perCall
  ({ method := "DELETE",
     urlParts := [options.field "host", options.field "restApiVersion",
                  some (JVal.str "subscriptions"), some (JVal.str endpoint)],
     headers := [("accept", "application/json")],
     qs := none, body := none, json := none },
   fun result =>
     match result with
     | .error e =>
         if e.status = some 404 then [Arg.null, Arg.bool false]
         else [Arg.error e]
     | .ok _ => [Arg.null])

/-- The `deleteAllSubscriptions` operation of `lib/subscriptions.js`:
DELETE `subscriptions`; every error is passed on. -/
def deleteAllSubscriptions (thisOpts : List (String × JVal))
    (perCall : Option (List (String × JVal))) : Request × Handler :=
  let options := extendOptions thisOpts perCall
  ({ method := "DELETE",
     urlParts := [options.field "host", options.field "restApiVersion",
                  some (JVal.str "subscriptions")],
     headers := [("accept", "application/json")],
     qs := none, body := none, json := none },
   fun result =>
     match result with
     | .error e => [Arg.error e]
     | .ok _ => [Arg.null])

/-- The `getPreSubscription` operation of `lib/subscriptions.js`:
GET `subscriptions`; every error is passed on, success reports the parsed
payload. -/
def getPreSubscription (thisOpts : List (String × JVal))
    (perCall : Option (List (String × JVal))) : Request × Handler :=
  let options := extendOptions thisOpts perCall
  ({ method := "GET",
     urlParts := [options.field "host", options.field "restApiVersion",
                  some (JVal.str "subscriptions")],
     headers := [("accept", "application/json")],
     qs := none, body := none, json := none },
   fun result =>
     match result with
     | .error e => [Arg.error e]
     | .ok data => [Arg.null, Arg.json data.payload])

/-- The `putPreSubscription` operation of `lib/subscriptions.js`:
PUT `subscriptions` with a json body; every error is passed on. -/
def putPreSubscription (thisOpts : List (String × JVal)) (data : JVal)
    (perCall : Option (List (String × JVal))) : Request × Handler :=
  let options := extendOptions thisOpts perCall
  ({ method := "PUT",
     urlParts := [options.field "host", options.field "restApiVersion",
                  some (JVal.str "subscriptions")],
     headers := [], qs := none, body := none, json := some data },
   fun result =>
     match result with
     | .error e => [Arg.error e]
     | .ok _ => [Arg.null])

/-- The options argument of `getEndpoints`, which accepts a string (an
endpoint-type filter), an object, or nothing. -/
inductive EndpointsArg where
  | str : String → EndpointsArg
  | obj : List (String × JVal) → EndpointsArg
  | absent : EndpointsArg

/-- The `getEndpoints` operation of the endpoint request-builder file:
a string options argument is rewritten to `{parameters: {type: options}}`;
GET `endpoints`, attaching the merged `parameters` as the query string
when truthy; every error is passed on, success reports the parsed
payload. -/
def getEndpoints (thisOpts : List (String × JVal)) (arg : EndpointsArg) :
    Request × Handler :=
  let perCall : Option (List (String × JVal)) :=
    match arg with
    | .str s => some [("parameters", JVal.obj [("type", JVal.str s)])]
    | .obj fs => some fs
    | .absent => none
  let options := extendOptions thisOpts perCall
  ({ method := "GET",
     urlParts := [options.field "host", options.field "restApiVersion",
                  some (JVal.str "endpoints")],
     headers := [("accept", "application/json")],
     qs :=
       match options.field "parameters" with
       | some v => if v.truthy then some v else none
       | none => none,
     body := none, json := none },
   fun result =>
     match result with
     | .error e => [Arg.error e]
     | .ok data => [Arg.null, Arg.json data.payload])

/-- The `getResources` operation of the endpoint request-builder file:
GET `endpoints/{endpoint}`; every error is passed on, success reports the
parsed payload. -/
def getResources (thisOpts : List (String × JVal)) (endpoint : JVal)
    (perCall : Option (List (String × JVal))) : Request × Handler :=
  let ep := endpointName endpoint
  let options := extendOptions thisOpts perCall
  ({ method := "GET",
     urlParts := [options.field "host", options.field "restApiVersion",
                  some (JVal.str "endpoints"), some ep],
     headers := [("accept", "application/json")],
     qs := none, body := none, json := none },
   fun result =>
     match result with
     | .error e => [Arg.error e]
     | .ok data => [Arg.null, Arg.json data.payload])

/-- The `getResourceValue` operation of the endpoint request-builder file:
GET `endpoints/{endpoint}/{resource}` with the merged `parameters` as the
query string; every error is passed on, success reports the payload. -/
def getResourceValue (thisOpts : List (String × JVal)) (endpoint : JVal)
    (resource : String)
    (perCall : Option (List (String × JVal))) : Request × Handler :=
  let ep := endpointName endpoint
  let options := extendOptions thisOpts perCall
  ({ method := "GET",
     urlParts := [options.field "host", options.field "restApiVersion",
                  some (JVal.str "endpoints"), some ep,
                  some (JVal.str resource)],
     headers := [("accept", "*/*")],
     qs := options.field "parameters", body := none, json := none },
   fun result =>
     match result with
     | .error e => [Arg.error e]
     | .ok data => [Arg.null, Arg.str data.payload])

/-- The `putResourceValue` operation of the endpoint request-builder file:
PUT `endpoints/{endpoint}/{resource}` with the stringified value as body;
every error is passed on. -/
def putResourceValue (thisOpts : List (String × JVal)) (endpoint : JVal)
    (resource value : String)
    (perCall : Option (List (String × JVal))) : Request × Handler :=
  let ep := endpointName endpoint
  let options := extendOptions thisOpts perCall
  ({ method := "PUT",
     urlParts := [options.field "host", options.field "restApiVersion",
                  some (JVal.str "endpoints"), some ep,
                  some (JVal.str resource)],
     headers := [("accept", "application/json")],
     qs := options.field "parameters", body := some value, json := none },
   fun result =>
     match result with
     | .error e => [Arg.error e]
     | .ok _ => [Arg.null])

/-- The `postResource` operation of the endpoint request-builder file:
POST `endpoints/{endpoint}/{resource}`, attaching the stringified value as
body only when the value is truthy (`if (value)`); every error is passed
on. -/
def postResource (thisOpts : List (String × JVal)) (endpoint : JVal)
    (resource : String) (value : Option String)
    (perCall : Option (List (String × JVal))) : Request × Handler :=
  let ep := endpointName endpoint
  let options := extendOptions thisOpts perCall
  ({ method := "POST",
     urlParts := [options.field "host", options.field "restApiVersion",
                  some (JVal.str "endpoints"), some ep,
                  some (JVal.str resource)],
     headers := [("accept", "application/json")],
     qs := options.field "parameters",
     body :=
       match value with
       | some s => if s = "" then none else some s
       | none => none,
     json := none },
   fun result =>
     match result with
     | .error e => [Arg.error e]
     | .ok _ => [Arg.null])

/-- The `deleteEndpoint` operation of the endpoint request-builder file:
DELETE `endpoints/{endpoint}`; every error is passed on. -/
def deleteEndpoint (thisOpts : List (String × JVal)) (endpoint : JVal)
    (perCall : Option (List (String × JVal))) : Request × Handler :=
  let ep := endpointName endpoint
  let options := extendOptions thisOpts perCall
  ({ method := "DELETE",
     urlParts := [options.field "host", options.field "restApiVersion",
                  some (JVal.str "endpoints"), some ep],
     headers := [("accept", "application/json")],
     qs := options.field "parameters", body := none, json := none },
   fun result =>
     match result with
     | .error e => [Arg.error e]
     | .ok _ => [Arg.null])

/-- A heap value of the mutable object model: a primitive, or a reference
to a heap object. Used to analyse which objects the `extend` module
writes. -/
inductive HVal where
  | null : HVal
  | bool : Bool → HVal
  | num : Int → HVal
  | str : String → HVal
  | ref : Nat → HVal
deriving DecidableEq, Repr

/-- A heap object: its property list. -/
abbrev HObj := List (String × HVal)

/-- The heap: objects addressed by their position. -/
abbrev Heap := List HObj

/-- Overwrite property `k` of an object in place (keeping its position),
appending the property when it is new — the JavaScript
`target[name] = v`. -/
def setHV : HObj → String → HVal → HObj
  | [], k, v => [(k, v)]
  | (k2, w) :: rest, k, v =>
      if k2 = k then (k2, v) :: rest else (k2, w) :: setHV rest k v

/-- Read property `name` of object `i` — the `getProperty(target, name)`
helper of the `extend` module. -/
def getProperty (h : Heap) (i : Nat) (name : String) : Option HVal :=
  match h[i]? with
  | some fs => lookupField fs name
  | none => none

/-- Write property `name` of object `i` — the `setProperty` helper of the
`extend` module (a write to an absent object is a no-op). -/
def setProperty (h : Heap) (i : Nat) (name : String) (v : HVal) : Heap :=
  match h[i]? with
  | some fs => h.set i (setHV fs name v)
  | none => h

/-- A work item of the `extend` interpreter: a nested `extend(true, tgt,
srcs...)` call, the loop over the remaining sources, or the
`for (name in options)` loop over the remaining properties of one
source. -/
inductive ExtTask where
  | call : Nat → List HVal → ExtTask
  | srcList : Nat → List HVal → ExtTask
  | fieldList : Nat → HObj → ExtTask

/-- The target object of a work item. -/
def ExtTask.tgt : ExtTask → Nat
  | .call t _ => t
  | .srcList t _ => t
  | .fieldList t _ => t

/-- A fuel-indexed interpreter for the npm `extend` module with
`deep = true`, operating on the heap: non-object sources are skipped; a
primitive property is written to the target; an object-valued property
`copy` is cloned — the clone is the target's existing object under that
name when there is one (`clone = src && isPlainObject(src) ? src : {}`)
and a freshly allocated empty object otherwise — the clone is recursively
extended with `copy` and stored in the target; a property whose value is
the target itself is skipped (the `target !== copy` guard). Returns `none`
when the fuel runs out. -/
def extendRun : Nat → Heap → ExtTask → Option Heap
  | 0, _, _ => none
  | Nat.succ f, h, .call tgt srcs => extendRun f h (.srcList tgt srcs)
  | Nat.succ _, h, .srcList _ [] => some h
  | Nat.succ f, h, .srcList tgt (s :: rest) =>
      match s with
      | .ref o =>
          (match h[o]? with
           | some fs =>
               (extendRun f h (.fieldList tgt fs)).bind fun h1 =>
                 extendRun f h1 (.srcList tgt rest)
           | none => extendRun f h (.srcList tgt rest))
      | _ => extendRun f h (.srcList tgt rest)
  | Nat.succ _, h, .fieldList _ [] => some h
  | Nat.succ f, h, .fieldList tgt ((name, copy) :: rest) =>
      if copy = HVal.ref tgt then extendRun f h (.fieldList tgt rest)
      else
        match copy with
        | .ref c =>
            (match getProperty h tgt name with
             | some (HVal.ref s) =>
                 (extendRun f h (.call s [HVal.ref c])).bind fun h2 =>
                   extendRun f (setProperty h2 tgt name (HVal.ref s))
                     (.fieldList tgt rest)
             | _ =>
                 (extendRun f (h ++ [[]]) (.call h.length [HVal.ref c])).bind
                   fun h2 =>
                     extendRun f (setProperty h2 tgt name (HVal.ref h.length))
                       (.fieldList tgt rest))
        | _ => extendRun f (setProperty h tgt name copy) (.fieldList tgt rest)

/-- The option-merging call made by every operation, in the heap model:
`extend(true, {}, this.options, options || {})` — a fresh empty target
object is allocated at the end of the heap and extended with the instance
options object (`optionsId`) and the per-call options value. -/
def mergeIntoFreshTarget (fuel : Nat) (h : Heap) (optionsId : Nat)
    (perCall : HVal) : Option Heap :=
  extendRun fuel (h ++ [[]]) (.call h.length [HVal.ref optionsId, perCall])

/-- The write-barrier set of an `extend` run: objects the run is allowed
to touch. Every object of `S` only references objects of `S`. -/
def HeapClosed (h : Heap) (S : Nat → Prop) : Prop :=
  ∀ i fs, S i → h[i]? = some fs → ∀ name o, (name, HVal.ref o) ∈ fs → S o

/-- `S` contains every address at or beyond the end of the heap, so that
freshly allocated objects always fall in `S`. -/
def HeapCovers (h : Heap) (S : Nat → Prop) : Prop :=
  ∀ i, h.length ≤ i → S i

/-- The Pending-Request Correlator of the long-poll notification channel.
Modelled from the spec: the channel implementation (`common.js`) is not
among the provided sources; per spec §4.4 the correlator is a token-indexed
table of pending callbacks where `register(token, callback)` stores a
pending entry and `resolve(token, result)` removes and invokes the stored
callback with the result, while `resolve` on an unknown token is a no-op.
Callbacks are kept symbolic as identifiers; `resolve` reports the
invocations it performs as a list of (callback, result) pairs. -/
structure Correlator where
  pending : List (String × Nat)
deriving DecidableEq, Repr

/-- Modelled from the spec: `register(token, callback)` stores a pending
entry for the token (replacing any previous one, keeping tokens unique
while outstanding, per the data-model invariant of spec §3). -/
def Correlator.register (c : Correlator) (token : String) (cb : Nat) :
    Correlator :=
  ⟨(token, cb) :: c.pending.filter (fun p => p.1 != token)⟩

/-- Modelled from the spec: `resolve(token, result)` removes the stored
entry and invokes its callback with the result; on an unknown token it is
a no-op and invokes nothing. -/
def Correlator.resolve (c : Correlator) (token : String) (result : String) :
    Correlator × List (Nat × String) :=
  match lookupField c.pending token with
  | some cb => (⟨c.pending.filter (fun p => p.1 != token)⟩, [(cb, result)])
  | none => (c, [])

/-- Claim C1: for every endpoint name and resource path, when
`getResourceSubscription`'s underlying `makeRequest` call fails with an
error whose status is 404, the callback is invoked with `(null, false)`;
an error with any other status is passed to the callback as its first
argument; and on success the callback receives `(null, true)`. -/
theorem C1_getResourceSubscription_callback (thisOpts : List (String × JVal))
    (endpoint resource : String) (perCall : Option (List (String × JVal)))
    (body : String) (e : HttpError) (hne : e.status ≠ some 404)
    (d : ResponseData) :
    (getResourceSubscription thisOpts endpoint resource perCall).2
        (.error { status := some 404, body := body }) =
      [Arg.null, Arg.bool false] ∧
    (getResourceSubscription thisOpts endpoint resource perCall).2 (.error e) =
      [Arg.error e] ∧
    (getResourceSubscription thisOpts endpoint resource perCall).2 (.ok d) =
      [Arg.null, Arg.bool true] := by
  refine ⟨?_, ?_, ?_⟩ <;> simp [getResourceSubscription, hne]

/-- Witness for C1 at concrete inputs. -/
theorem C1_getResourceSubscription_callback_witness :
    (getResourceSubscription [] "node-1" "3/0/1" none).2
        (.error { status := some 404, body := "not found" }) =
      [Arg.null, Arg.bool false] ∧
    (getResourceSubscription [] "node-1" "3/0/1" none).2
        (.error { status := some 500, body := "server error" }) =
      [Arg.error { status := some 500, body := "server error" }] ∧
    (getResourceSubscription [] "node-1" "3/0/1" none).2 (.ok ⟨""⟩) =
      [Arg.null, Arg.bool true] :=
  C1_getResourceSubscription_callback [] "node-1" "3/0/1" none "not found"
    { status := some 500, body := "server error" } (by decide) ⟨""⟩

/-- Claim C2: for every endpoint name, when `getEndpointSubscriptions`'s
underlying `makeRequest` call fails with an error whose status is 404, the
callback is invoked with `(null, [])`; an error with any other status is
passed to the callback as an error. -/
theorem C2_getEndpointSubscriptions_404_empty (thisOpts : List (String × JVal))
    (endpoint : String) (perCall : Option (List (String × JVal)))
    (body : String) (e : HttpError) (hne : e.status ≠ some 404) :
    (getEndpointSubscriptions thisOpts endpoint perCall).2
        (.error { status := some 404, body := body }) =
      [Arg.null, Arg.strList []] ∧
    (getEndpointSubscriptions thisOpts endpoint perCall).2 (.error e) =
      [Arg.error e] := by
  refine ⟨?_, ?_⟩ <;> simp [getEndpointSubscriptions, hne]

/-- Witness for C2 at concrete inputs. -/
theorem C2_getEndpointSubscriptions_404_empty_witness :
    (getEndpointSubscriptions [] "node-1" none).2
        (.error { status := some 404, body := "not found" }) =
      [Arg.null, Arg.strList []] ∧
    (getEndpointSubscriptions [] "node-1" none).2
        (.error { status := some 409, body := "conflict" }) =
      [Arg.error { status := some 409, body := "conflict" }] :=
  C2_getEndpointSubscriptions_404_empty [] "node-1" none "not found"
    { status := some 409, body := "conflict" } (by decide)

/-- Counterexample to claim C3 as stated: a 404 returned to
`deleteResourceSubscription` is converted into a success (the callback is
invoked with no arguments, so no error is surfaced), and a 404 returned to
`deleteEndpointSubscriptions` is converted into the success value
`(null, false)` — in neither case is the error passed to the callback. -/
theorem C3_counterexample :
    (deleteResourceSubscription [] "node-1" "3/0/1" none).2
        (.error { status := some 404, body := "not found" }) = [] ∧
    (deleteEndpointSubscriptions [] "node-1" none).2
        (.error { status := some 404, body := "not found" }) =
      [Arg.null, Arg.bool false] ∧
    ([] : List Arg) ≠ [Arg.error { status := some 404, body := "not found" }] ∧
    [Arg.null, Arg.bool false] ≠
      [Arg.error { status := some 404, body := "not found" }] := by
  exact ⟨by simp [deleteResourceSubscription], by simp [deleteEndpointSubscriptions],
    by decide, by decide⟩

/-- Claim C3 amended: for `deleteResourceSubscription` and
`deleteEndpointSubscriptions`, an error whose status is not 404 is
surfaced to the callback as an error, while a 404 is converted into a
success result (a no-argument invocation for the former, `(null, false)`
for the latter). -/
theorem C3_amended_delete_error_handling (thisOpts : List (String × JVal))
    (endpoint resource : String) (perCall : Option (List (String × JVal)))
    (body : String) (e : HttpError) (hne : e.status ≠ some 404) :
    (deleteResourceSubscription thisOpts endpoint resource perCall).2
        (.error e) = [Arg.error e] ∧
    (deleteEndpointSubscriptions thisOpts endpoint perCall).2 (.error e) =
      [Arg.error e] ∧
    (deleteResourceSubscription thisOpts endpoint resource perCall).2
        (.error { status := some 404, body := body }) = [] ∧
    (deleteEndpointSubscriptions thisOpts endpoint perCall).2
        (.error { status := some 404, body := body }) =
      [Arg.null, Arg.bool false] := by
  refine ⟨?_, ?_, ?_, ?_⟩ <;>
    simp [deleteResourceSubscription, deleteEndpointSubscriptions, hne]

/-- Witness for the amended C3 at concrete inputs. -/
theorem C3_amended_delete_error_handling_witness :
    (deleteResourceSubscription [] "node-1" "3/0/1" none).2
        (.error { status := some 500, body := "server error" }) =
      [Arg.error { status := some 500, body := "server error" }] ∧
    (deleteEndpointSubscriptions [] "node-1" none).2
        (.error { status := some 500, body := "server error" }) =
      [Arg.error { status := some 500, body := "server error" }] ∧
    (deleteResourceSubscription [] "node-1" "3/0/1" none).2
        (.error { status := some 404, body := "not found" }) = [] ∧
    (deleteEndpointSubscriptions [] "node-1" none).2
        (.error { status := some 404, body := "not found" }) =
      [Arg.null, Arg.bool false] :=
  C3_amended_delete_error_handling [] "node-1" "3/0/1" none "not found"
    { status := some 500, body := "server error" } (by decide)

/-- Claim C4: the 404 semantics differ per endpoint and each operation
preserves its own — a 404 completion makes `deleteResourceSubscription`
invoke the callback with no arguments (plain success, no error),
`getResourceSubscription` and `deleteEndpointSubscriptions` report the
distinguished success value `(null, false)`, `getEndpointSubscriptions`
reports `(null, [])`, while `putResourceSubscription` and
`deleteAllSubscriptions` pass the 404 error to the callback unchanged. -/
theorem C4_per_operation_404_semantics (thisOpts : List (String × JVal))
    (endpoint resource : String) (perCall : Option (List (String × JVal)))
    (body : String) :
    (deleteResourceSubscription thisOpts endpoint resource perCall).2
        (.error { status := some 404, body := body }) = [] ∧
    (getResourceSubscription thisOpts endpoint resource perCall).2
        (.error { status := some 404, body := body }) =
      [Arg.null, Arg.bool false] ∧
    (deleteEndpointSubscriptions thisOpts endpoint perCall).2
        (.error { status := some 404, body := body }) =
      [Arg.null, Arg.bool false] ∧
    (getEndpointSubscriptions thisOpts endpoint perCall).2
        (.error { status := some 404, body := body }) =
      [Arg.null, Arg.strList []] ∧
    (putResourceSubscription thisOpts endpoint resource perCall).2
        (.error { status := some 404, body := body }) =
      [Arg.error { status := some 404, body := body }] ∧
    (deleteAllSubscriptions thisOpts perCall).2
        (.error { status := some 404, body := body }) =
      [Arg.error { status := some 404, body := body }] := by
  refine ⟨?_, ?_, ?_, ?_, ?_, ?_⟩ <;>
    simp [deleteResourceSubscription, getResourceSubscription,
      deleteEndpointSubscriptions, getEndpointSubscriptions,
      putResourceSubscription, deleteAllSubscriptions]

/-- Claim C9: on a successful `getEndpointSubscriptions` response the
subscription list passed to the callback is the payload with at most one
trailing newline removed, split at newline characters; for the empty
payload the callback receives the one-element list containing the empty
string (never the empty list), and of two trailing newlines only one is
removed. -/
theorem C9_getEndpointSubscriptions_payload_split
    (thisOpts : List (String × JVal)) (endpoint : String)
    (perCall : Option (List (String × JVal))) (p : String) :
    (getEndpointSubscriptions thisOpts endpoint perCall).2 (.ok ⟨p⟩) =
      [Arg.null, Arg.strList (splitNewlines (trimTrailingNewline p))] ∧
    (getEndpointSubscriptions thisOpts endpoint perCall).2 (.ok ⟨""⟩) =
      [Arg.null, Arg.strList [""]] ∧
    (getEndpointSubscriptions thisOpts endpoint perCall).2 (.ok ⟨"a\n\n"⟩) =
      [Arg.null, Arg.strList ["a", ""]] ∧
    (getEndpointSubscriptions thisOpts endpoint perCall).2 (.ok ⟨"a\nb"⟩) =
      [Arg.null, Arg.strList ["a", "b"]] := by
  refine ⟨by simp [getEndpointSubscriptions], ?_, ?_, ?_⟩ <;>
    simp [getEndpointSubscriptions] <;> decide

/-- A key absent from an association list looks up to `none`. -/
theorem lookupField_eq_none_of_not_mem {α : Type} (l : List (String × α))
    (k : String) (h : k ∉ l.map Prod.fst) : lookupField l k = none := by
  induction l with
  | nil => rfl
  | cons p rest ih =>
      obtain ⟨k2, v⟩ := p
      simp only [List.map_cons, List.mem_cons, not_or] at h
      simp only [lookupField]
      rw [if_neg (fun hk => h.1 hk.symm)]
      exact ih h.2

/-- Storing a key and reading it back yields the stored value, deep-merged
with the previous value when there was one. -/
theorem lookupField_setKey_self (a : List (String × JVal)) (k : String)
    (v : JVal) :
    lookupField (setKey a k v) k =
      some (match lookupField a k with
            | none => v
            | some w => w.merge v) := by
  induction a with
  | nil => simp [setKey, lookupField]
  | cons p rest ih =>
      obtain ⟨k2, w⟩ := p
      by_cases hk : k2 = k
      · subst hk
        simp [setKey, lookupField]
      · simp [setKey, lookupField, hk, ih]

/-- Storing a key does not change the lookup of any other key. -/
theorem lookupField_setKey_ne (a : List (String × JVal)) (k k2 : String)
    (v : JVal) (hk : k2 ≠ k) :
    lookupField (setKey a k v) k2 = lookupField a k2 := by
  have hk' : ¬ k = k2 := fun h => hk h.symm
  induction a with
  | nil => simp [setKey, lookupField, hk']
  | cons p rest ih =>
      obtain ⟨k1, w⟩ := p
      by_cases hk1 : k1 = k
      · subst hk1
        have h12 : ¬ k1 = k2 := fun h => hk h.symm
        simp [setKey, lookupField, h12]
      · by_cases hk2 : k1 = k2
        · subst hk2
          simp [setKey, lookupField, hk1]
        · simp [setKey, lookupField, hk1, hk2, ih]

/-- Characterisation of property lookup after the `extend` field-merge
loop: a key present in the source wins (deep-merged with the target's
previous value when there was one), a key absent from the source keeps the
target's value. Requires the source keys to be distinct, as the keys of a
JavaScript object are. -/
theorem lookupField_mergeFields (b : List (String × JVal)) :
    ∀ (a : List (String × JVal)) (k : String), (b.map Prod.fst).Nodup →
      lookupField (mergeFields a b) k =
        match lookupField b k with
        | none => lookupField a k
        | some v =>
            some (match lookupField a k with
                  | none => v
                  | some w => w.merge v) := by
  induction b with
  | nil =>
      intro a k _
      simp [mergeFields, lookupField]
  | cons p rest ih =>
      obtain ⟨k1, v1⟩ := p
      intro a k hnd
      simp only [List.map_cons, List.nodup_cons] at hnd
      obtain ⟨hk1, hrest⟩ := hnd
      have hstep : mergeFields a ((k1, v1) :: rest) =
          mergeFields (setKey a k1 v1) rest := by
        simp [mergeFields]
      rw [hstep, ih (setKey a k1 v1) k hrest]
      by_cases hk : k1 = k
      · subst hk
        have hr : lookupField rest k1 = none :=
          lookupField_eq_none_of_not_mem rest k1 hk1
        rw [hr]
        simp only [lookupField, if_pos rfl]
        exact lookupField_setKey_self a k1 v1
      · rw [lookupField_setKey_ne a k1 k v1 (fun h => hk h.symm)]
        simp only [lookupField, if_neg hk]

/-- Merging a source object into a fresh empty target reproduces the
source's lookups. -/
theorem lookupField_mergeFields_nil (b : List (String × JVal)) (k : String)
    (hnd : (b.map Prod.fst).Nodup) :
    lookupField (mergeFields [] b) k = lookupField b k := by
  rw [lookupField_mergeFields b [] k hnd]
  cases h : lookupField b k <;> simp [lookupField]

/-- Merging a value into a property that is not a plain object replaces it
outright. -/
theorem merge_eq_of_not_isObj (a b : JVal) (hb : b.isObj = false) :
    a.merge b = b := by
  cases a <;> cases b <;> simp_all [JVal.merge, JVal.isObj]

/-- The merged option object, expressed through the field-merge loop. -/
theorem extendOptions_eq_some (thisOpts perCall : List (String × JVal)) :
    extendOptions thisOpts (some perCall) =
      JVal.obj (mergeFields (mergeFields [] thisOpts) perCall) := by
  simp [extendOptions, JVal.merge]

/-- The merged option object when no per-call options are given. -/
theorem extendOptions_eq_none (thisOpts : List (String × JVal)) :
    extendOptions thisOpts none = JVal.obj (mergeFields [] thisOpts) := by
  simp [extendOptions, JVal.merge, mergeFields]

/-- Claim C5: for every operation the effective configuration is the deep
merge of the instance options with the per-call options, with defined
precedence — a key present in the per-call options takes precedence over
the instance default under that key (deep-merging the two when both are
objects, and replacing the default outright whenever the per-call value is
not an object), and a key absent from the per-call options retains its
instance-default value; when the per-call argument is absent every key
retains its instance-default value. The key lists of the two option
objects are distinct, as JavaScript object keys are. -/
theorem C5_options_merge_precedence (thisOpts perCall : List (String × JVal))
    (k : String) (hnd : (thisOpts.map Prod.fst).Nodup)
    (hnp : (perCall.map Prod.fst).Nodup) :
    ((extendOptions thisOpts (some perCall)).field k =
      match lookupField perCall k with
      | none => lookupField thisOpts k
      | some v =>
          some (match lookupField thisOpts k with
                | none => v
                | some w => w.merge v)) ∧
    (∀ w v : JVal, v.isObj = false → w.merge v = v) ∧
    (extendOptions thisOpts none).field k = lookupField thisOpts k := by
  refine ⟨?_, fun w v hv => merge_eq_of_not_isObj w v hv, ?_⟩
  · rw [extendOptions_eq_some, JVal.field]
    simp only [JVal.fields]
    rw [lookupField_mergeFields perCall (mergeFields [] thisOpts) k hnp]
    rw [lookupField_mergeFields_nil thisOpts k hnd]
  · rw [extendOptions_eq_none, JVal.field]
    simp only [JVal.fields]
    exact lookupField_mergeFields_nil thisOpts k hnd

/-- Witness for C5 at concrete inputs: the per-call `timeout` overrides
the default, the default `host` survives, and without per-call options the
default `timeout` survives. -/
theorem C5_options_merge_precedence_witness :
    (([("host", JVal.str "https://api.connector.mbed.com"),
       ("timeout", JVal.num 1)].map Prod.fst).Nodup) ∧
    (([("timeout", JVal.num 2)].map Prod.fst).Nodup) ∧
    (extendOptions
        [("host", JVal.str "https://api.connector.mbed.com"),
         ("timeout", JVal.num 1)]
        (some [("timeout", JVal.num 2)])).field "timeout" =
      some (JVal.num 2) ∧
    (extendOptions
        [("host", JVal.str "https://api.connector.mbed.com"),
         ("timeout", JVal.num 1)]
        (some [("timeout", JVal.num 2)])).field "host" =
      some (JVal.str "https://api.connector.mbed.com") ∧
    (extendOptions
        [("host", JVal.str "https://api.connector.mbed.com"),
         ("timeout", JVal.num 1)] none).field "timeout" =
      some (JVal.num 1) := by
  have hnd : (([("host", JVal.str "https://api.connector.mbed.com"),
      ("timeout", JVal.num 1)].map Prod.fst).Nodup) := by simp
  have hnp : (([("timeout", JVal.num 2)].map Prod.fst).Nodup) := by simp
  refine ⟨hnd, hnp, ?_, ?_, ?_⟩
  · have h := (C5_options_merge_precedence
      [("host", JVal.str "https://api.connector.mbed.com"),
       ("timeout", JVal.num 1)] [("timeout", JVal.num 2)] "timeout" hnd hnp).1
    rw [h]
    simp [lookupField, JVal.merge]
  · have h := (C5_options_merge_precedence
      [("host", JVal.str "https://api.connector.mbed.com"),
       ("timeout", JVal.num 1)] [("timeout", JVal.num 2)] "host" hnd hnp).1
    rw [h]
    simp [lookupField]
  · have h := (C5_options_merge_precedence
      [("host", JVal.str "https://api.connector.mbed.com"),
       ("timeout", JVal.num 1)] [("timeout", JVal.num 2)] "timeout" hnd hnp).2.2
    rw [h]
    simp [lookupField]

/-- Merging any value into a property whose previous value is not a plain
object replaces the previous value outright. -/
theorem merge_eq_of_fst_not_isObj (a b : JVal) (ha : a.isObj = false) :
    a.merge b = b := by
  cases a <;> cases b <;> simp_all [JVal.merge, JVal.isObj]

/-- Claim C10: a string options argument to `getEndpoints` is interpreted
as an endpoint-type filter — the call behaves exactly as if the options
were `{parameters: {type: <the string>}}`, and the built request carries a
query-string object whose `type` parameter is that string (also after the
deep merge with any instance-default `parameters`). -/
theorem C10_getEndpoints_string_filter (thisOpts : List (String × JVal))
    (s : String) (hnd : (thisOpts.map Prod.fst).Nodup) :
    getEndpoints thisOpts (.str s) =
      getEndpoints thisOpts
        (.obj [("parameters", JVal.obj [("type", JVal.str s)])]) ∧
    ∃ params : List (String × JVal),
      (getEndpoints thisOpts (.str s)).1.qs = some (JVal.obj params) ∧
      lookupField params "type" = some (JVal.str s) := by
  constructor
  · rfl
  · have hqs : (getEndpoints thisOpts (.str s)).1.qs =
        match (extendOptions thisOpts
            (some [("parameters", JVal.obj [("type", JVal.str s)])])).field
            "parameters" with
        | some v => if v.truthy then some v else none
        | none => none := rfl
    have hP : (extendOptions thisOpts
        (some [("parameters", JVal.obj [("type", JVal.str s)])])).field
        "parameters" =
          some (match lookupField thisOpts "parameters" with
                | none => JVal.obj [("type", JVal.str s)]
                | some w => w.merge (JVal.obj [("type", JVal.str s)])) := by
      rw [extendOptions_eq_some, JVal.field]
      simp only [JVal.fields]
      rw [lookupField_mergeFields
        [("parameters", JVal.obj [("type", JVal.str s)])]
        (mergeFields [] thisOpts) "parameters" (by simp)]
      rw [lookupField_mergeFields_nil thisOpts "parameters" hnd]
      simp [lookupField]
    cases hw : lookupField thisOpts "parameters" with
    | none =>
        refine ⟨[("type", JVal.str s)], ?_, by simp [lookupField]⟩
        rw [hqs, hP, hw]
        simp [JVal.truthy]
    | some w =>
        cases w with
        | obj wfs =>
            refine ⟨mergeFields wfs [("type", JVal.str s)], ?_, ?_⟩
            · rw [hqs, hP, hw]
              simp [JVal.merge, JVal.truthy]
            · rw [lookupField_mergeFields [("type", JVal.str s)] wfs "type"
                (by simp)]
              cases hu : lookupField wfs "type" with
              | none => simp [lookupField]
              | some u =>
                  simp [lookupField,
                    merge_eq_of_not_isObj u (JVal.str s) rfl]
        | null =>
            refine ⟨[("type", JVal.str s)], ?_, by simp [lookupField]⟩
            rw [hqs, hP, hw]
            simp [merge_eq_of_fst_not_isObj JVal.null
              (JVal.obj [("type", JVal.str s)]) rfl, JVal.truthy]
        | bool b =>
            refine ⟨[("type", JVal.str s)], ?_, by simp [lookupField]⟩
            rw [hqs, hP, hw]
            simp [merge_eq_of_fst_not_isObj (JVal.bool b)
              (JVal.obj [("type", JVal.str s)]) rfl, JVal.truthy]
        | num n =>
            refine ⟨[("type", JVal.str s)], ?_, by simp [lookupField]⟩
            rw [hqs, hP, hw]
            simp [merge_eq_of_fst_not_isObj (JVal.num n)
              (JVal.obj [("type", JVal.str s)]) rfl, JVal.truthy]
        | str t =>
            refine ⟨[("type", JVal.str s)], ?_, by simp [lookupField]⟩
            rw [hqs, hP, hw]
            simp [merge_eq_of_fst_not_isObj (JVal.str t)
              (JVal.obj [("type", JVal.str s)]) rfl, JVal.truthy]

/-- Witness for C10 at a concrete instance-default option list that itself
contains a `parameters` object. -/
theorem C10_getEndpoints_string_filter_witness :
    (([("host", JVal.str "https://api.connector.mbed.com"),
       ("parameters", JVal.obj [("cacheOnly", JVal.bool true)])].map
        Prod.fst).Nodup) ∧
    (getEndpoints
        [("host", JVal.str "https://api.connector.mbed.com"),
         ("parameters", JVal.obj [("cacheOnly", JVal.bool true)])]
        (.str "thermostat") =
      getEndpoints
        [("host", JVal.str "https://api.connector.mbed.com"),
         ("parameters", JVal.obj [("cacheOnly", JVal.bool true)])]
        (.obj [("parameters",
                JVal.obj [("type", JVal.str "thermostat")])])) ∧
    ∃ params : List (String × JVal),
      (getEndpoints
          [("host", JVal.str "https://api.connector.mbed.com"),
           ("parameters", JVal.obj [("cacheOnly", JVal.bool true)])]
          (.str "thermostat")).1.qs = some (JVal.obj params) ∧
      lookupField params "type" = some (JVal.str "thermostat") := by
  have h := C10_getEndpoints_string_filter
    [("host", JVal.str "https://api.connector.mbed.com"),
     ("parameters", JVal.obj [("cacheOnly", JVal.bool true)])]
    "thermostat" (by simp)
  exact ⟨by simp, h.1, h.2⟩

/-- Claim C6: for every operation, an error completion of `makeRequest`
that is not one of the specially-handled 404 cases is never silently
swallowed — it is delivered to the caller as the first (and only) argument
of the provided callback. The operations with a special 404 case
(`getResourceSubscription`, `deleteResourceSubscription`,
`getEndpointSubscriptions`, `deleteEndpointSubscriptions`) surface every
error whose status is not 404; every other operation surfaces every
error. -/
theorem C6_errors_always_delivered (thisOpts : List (String × JVal))
    (perCall : Option (List (String × JVal))) (earg : EndpointsArg)
    (epJ preData : JVal) (endpoint resource value : String)
    (pv : Option String) (e e2 : HttpError) (hne : e2.status ≠ some 404) :
    (getEndpoints thisOpts earg).2 (.error e) = [Arg.error e] ∧
    (getResources thisOpts epJ perCall).2 (.error e) = [Arg.error e] ∧
    (getResourceValue thisOpts epJ resource perCall).2 (.error e) =
      [Arg.error e] ∧
    (putResourceValue thisOpts epJ resource value perCall).2 (.error e) =
      [Arg.error e] ∧
    (postResource thisOpts epJ resource pv perCall).2 (.error e) =
      [Arg.error e] ∧
    (deleteEndpoint thisOpts epJ perCall).2 (.error e) = [Arg.error e] ∧
    (putResourceSubscription thisOpts endpoint resource perCall).2
      (.error e) = [Arg.error e] ∧
    (deleteAllSubscriptions thisOpts perCall).2 (.error e) = [Arg.error e] ∧
    (getPreSubscription thisOpts perCall).2 (.error e) = [Arg.error e] ∧
    (putPreSubscription thisOpts preData perCall).2 (.error e) =
      [Arg.error e] ∧
    (getResourceSubscription thisOpts endpoint resource perCall).2
      (.error e2) = [Arg.error e2] ∧
    (deleteResourceSubscription thisOpts endpoint resource perCall).2
      (.error e2) = [Arg.error e2] ∧
    (getEndpointSubscriptions thisOpts endpoint perCall).2 (.error e2) =
      [Arg.error e2] ∧
    (deleteEndpointSubscriptions thisOpts endpoint perCall).2 (.error e2) =
      [Arg.error e2] := by
  refine ⟨?_, ?_, ?_, ?_, ?_, ?_, ?_, ?_, ?_, ?_, ?_, ?_, ?_, ?_⟩ <;>
    simp [getEndpoints, getResources, getResourceValue, putResourceValue,
      postResource, deleteEndpoint, putResourceSubscription,
      deleteAllSubscriptions, getPreSubscription, putPreSubscription,
      getResourceSubscription, deleteResourceSubscription,
      getEndpointSubscriptions, deleteEndpointSubscriptions, hne]

/-- Witness for C6 at concrete inputs: a status-less network error for the
operations without a 404 case, and a 500 for the four operations with
one. -/
theorem C6_errors_always_delivered_witness :
    (getEndpoints [] .absent).2 (.error { status := none, body := "ECONNRESET" }) =
      [Arg.error { status := none, body := "ECONNRESET" }] ∧
    (getResources [] (JVal.str "node-1") none).2
      (.error { status := none, body := "ECONNRESET" }) =
      [Arg.error { status := none, body := "ECONNRESET" }] ∧
    (getResourceValue [] (JVal.str "node-1") "3/0/1" none).2
      (.error { status := none, body := "ECONNRESET" }) =
      [Arg.error { status := none, body := "ECONNRESET" }] ∧
    (putResourceValue [] (JVal.str "node-1") "3/0/1" "1" none).2
      (.error { status := none, body := "ECONNRESET" }) =
      [Arg.error { status := none, body := "ECONNRESET" }] ∧
    (postResource [] (JVal.str "node-1") "3/0/1" none none).2
      (.error { status := none, body := "ECONNRESET" }) =
      [Arg.error { status := none, body := "ECONNRESET" }] ∧
    (deleteEndpoint [] (JVal.str "node-1") none).2
      (.error { status := none, body := "ECONNRESET" }) =
      [Arg.error { status := none, body := "ECONNRESET" }] ∧
    (putResourceSubscription [] "node-1" "3/0/1" none).2
      (.error { status := none, body := "ECONNRESET" }) =
      [Arg.error { status := none, body := "ECONNRESET" }] ∧
    (deleteAllSubscriptions [] none).2
      (.error { status := none, body := "ECONNRESET" }) =
      [Arg.error { status := none, body := "ECONNRESET" }] ∧
    (getPreSubscription [] none).2
      (.error { status := none, body := "ECONNRESET" }) =
      [Arg.error { status := none, body := "ECONNRESET" }] ∧
    (putPreSubscription [] JVal.null none).2
      (.error { status := none, body := "ECONNRESET" }) =
      [Arg.error { status := none, body := "ECONNRESET" }] ∧
    (getResourceSubscription [] "node-1" "3/0/1" none).2
      (.error { status := some 500, body := "server error" }) =
      [Arg.error { status := some 500, body := "server error" }] ∧
    (deleteResourceSubscription [] "node-1" "3/0/1" none).2
      (.error { status := some 500, body := "server error" }) =
      [Arg.error { status := some 500, body := "server error" }] ∧
    (getEndpointSubscriptions [] "node-1" none).2
      (.error { status := some 500, body := "server error" }) =
      [Arg.error { status := some 500, body := "server error" }] ∧
    (deleteEndpointSubscriptions [] "node-1" none).2
      (.error { status := some 500, body := "server error" }) =
      [Arg.error { status := some 500, body := "server error" }] :=
  C6_errors_always_delivered [] none .absent (JVal.str "node-1") JVal.null
    "node-1" "3/0/1" "1" none { status := none, body := "ECONNRESET" }
    { status := some 500, body := "server error" } (by decide)

/-- A token removed by filtering the pending table looks up to nothing. -/
theorem lookupField_filter_token (l : List (String × Nat)) (t : String) :
    lookupField (l.filter (fun p => p.1 != t)) t = none := by
  induction l with
  | nil => rfl
  | cons p rest ih =>
      obtain ⟨k, v⟩ := p
      by_cases hk : k = t
      · subst hk
        simpa using ih
      · simpa [List.filter_cons, hk, lookupField] using ih

/-- Claim C7: in the Pending-Request Correlator, `register(token, cb)`
followed by `resolve(token, r)` invokes `cb` with `r` exactly once and
removes the stored entry, and a second `resolve(token, r)` on the same
token is a no-op that invokes nothing. -/
theorem C7_correlator_register_resolve (c : Correlator) (token : String)
    (cb : Nat) (r : String) :
    ((c.register token cb).resolve token r).2 = [(cb, r)] ∧
    lookupField ((c.register token cb).resolve token r).1.pending token =
      none ∧
    (((c.register token cb).resolve token r).1.resolve token r).1 =
      ((c.register token cb).resolve token r).1 ∧
    (((c.register token cb).resolve token r).1.resolve token r).2 = [] := by
  have hlook : lookupField (c.register token cb).pending token = some cb := by
    simp [Correlator.register, lookupField]
  have hres : (c.register token cb).resolve token r =
      (⟨(c.register token cb).pending.filter (fun p => p.1 != token)⟩,
       [(cb, r)]) := by
    unfold Correlator.resolve
    rw [hlook]
  have hnone :
      lookupField ((c.register token cb).resolve token r).1.pending token =
        none := by
    rw [hres]
    exact lookupField_filter_token _ token
  have hsecond : (((c.register token cb).resolve token r).1.resolve token r) =
      (((c.register token cb).resolve token r).1, []) := by
    have h1 : ((c.register token cb).resolve token r).1 =
        ⟨(c.register token cb).pending.filter (fun p => p.1 != token)⟩ := by
      rw [hres]
    rw [h1]
    simp only [Correlator.resolve, lookupField_filter_token]
  exact ⟨by rw [hres], hnone, by rw [hsecond], by rw [hsecond]⟩

/-- A successful lookup of a property exhibits a member of the field
list. -/
theorem lookupField_mem {α : Type} (l : List (String × α)) (k : String)
    (v : α) (h : lookupField l k = some v) : (k, v) ∈ l := by
  induction l with
  | nil => simp [lookupField] at h
  | cons p rest ih =>
      obtain ⟨k2, w⟩ := p
      by_cases hk : k2 = k
      · subst hk
        have hv : w = v := by simpa [lookupField] using h
        subst hv
        exact List.mem_cons_self _ _
      · simp only [lookupField, if_neg hk] at h
        exact List.mem_cons_of_mem _ (ih h)

/-- Every member of an object after a property write was already a member
or carries the written value. -/
theorem mem_setHV (fs : HObj) (k : String) (v : HVal) (p : String × HVal)
    (h : p ∈ setHV fs k v) : p ∈ fs ∨ p.2 = v := by
  induction fs with
  | nil =>
      rw [show setHV [] k v = [(k, v)] from rfl] at h
      rcases List.mem_singleton.mp h with h1
      subst h1
      exact Or.inr rfl
  | cons q rest ih =>
      obtain ⟨k2, w⟩ := q
      by_cases hk : k2 = k
      · subst hk
        rw [show setHV ((k2, w) :: rest) k2 v = (k2, v) :: rest from by
          simp [setHV]] at h
        rcases List.mem_cons.mp h with h1 | h1
        · subst h1
          exact Or.inr rfl
        · exact Or.inl (List.mem_cons_of_mem _ h1)
      · rw [show setHV ((k2, w) :: rest) k v = (k2, w) :: setHV rest k v from by
          simp [setHV, hk]] at h
        rcases List.mem_cons.mp h with h1 | h1
        · subst h1
          exact Or.inl (List.mem_cons_self _ _)
        · rcases ih h1 with h2 | h2
          · exact Or.inl (List.mem_cons_of_mem _ h2)
          · exact Or.inr h2

/-- A property write preserves the heap's length. -/
theorem length_setProperty (h : Heap) (i : Nat) (n : String) (v : HVal) :
    (setProperty h i n v).length = h.length := by
  unfold setProperty
  cases h[i]? with
  | none => rfl
  | some fs => simp

/-- A property write changes no other object. -/
theorem getElem_setProperty_ne (h : Heap) (i : Nat) (n : String) (v : HVal)
    (j : Nat) (hij : j ≠ i) : (setProperty h i n v)[j]? = h[j]? := by
  unfold setProperty
  cases h[i]? with
  | none => rfl
  | some fs => exact List.getElem?_set_ne (Ne.symm hij)

/-- A property write into an object of `S` with a value referencing only
`S` keeps the heap closed over `S`. -/
theorem closed_setProperty (S : Nat → Prop) (h : Heap) (i : Nat) (n : String)
    (v : HVal) (hc : HeapClosed h S) (hv : ∀ o, v = HVal.ref o → S o) :
    HeapClosed (setProperty h i n v) S := by
  intro j fs hSj hget name o hmem
  by_cases hji : j = i
  · subst hji
    unfold setProperty at hget
    cases hg : h[j]? with
    | none =>
        rw [hg] at hget
        exact hc j fs hSj hget name o hmem
    | some fs0 =>
        rw [hg] at hget
        have hlt : j < h.length := by
          rw [List.getElem?_eq_some] at hg
          exact hg.1
        rw [List.getElem?_set_self (by simpa using hlt)] at hget
        injection hget with hfs
        subst hfs
        rcases mem_setHV fs0 n v (name, HVal.ref o) hmem with h2 | h2
        · exact hc j fs0 hSj hg name o h2
        · exact hv o h2.symm
  · rw [getElem_setProperty_ne h i n v j hji] at hget
    exact hc j fs hSj hget name o hmem

/-- Allocating a fresh empty object keeps the heap closed over `S`. -/
theorem closed_append_nil (S : Nat → Prop) (h : Heap) (hc : HeapClosed h S) :
    HeapClosed (h ++ [[]]) S := by
  intro j fs hSj hget name o hmem
  by_cases hj : j < h.length
  · rw [List.getElem?_append_left hj] at hget
    exact hc j fs hSj hget name o hmem
  · by_cases hj2 : j = h.length
    · subst hj2
      rw [List.getElem?_concat_length] at hget
      injection hget with hfs
      subst hfs
      simp at hmem
    · have hnone : (h ++ [([] : HObj)])[j]? = none := by
        apply List.getElem?_eq_none
        simp only [List.length_append, List.length_singleton]
        omega
      rw [hnone] at hget
      cases hget

/-- `HeapCovers` transfers to any heap at least as long. -/
theorem covers_of_le (S : Nat → Prop) (h h2 : Heap) (hcov : HeapCovers h S)
    (hl : h.length ≤ h2.length) : HeapCovers h2 S :=
  fun i hi => hcov i (le_trans hl hi)

/-- Step lemma for a primitive property write inside the `extend` field
loop: the write goes to the target (an object of `S`), so frame, closure
and length are preserved through the rest of the loop. -/
theorem extendRun_frame_write_step (S : Nat → Prop) (f : Nat)
    (ih : ∀ (h : Heap) (t : ExtTask) (h2 : Heap),
      extendRun f h t = some h2 → S t.tgt → HeapClosed h S →
      HeapCovers h S →
      h.length ≤ h2.length ∧ HeapClosed h2 S ∧ ∀ i, ¬ S i → h2[i]? = h[i]?)
    (h : Heap) (tgt : Nat) (name : String) (v : HVal) (rest : HObj)
    (h2 : Heap)
    (hrun : extendRun f (setProperty h tgt name v) (.fieldList tgt rest) =
      some h2)
    (hS : S tgt) (hv : ∀ o, v = HVal.ref o → S o)
    (hc : HeapClosed h S) (hcov : HeapCovers h S) :
    h.length ≤ h2.length ∧ HeapClosed h2 S ∧
      ∀ i, ¬ S i → h2[i]? = h[i]? := by
  have hc1 := closed_setProperty S h tgt name v hc hv
  have hlen1 : (setProperty h tgt name v).length = h.length :=
    length_setProperty h tgt name v
  have hcov1 : HeapCovers (setProperty h tgt name v) S := fun i hi =>
    hcov i (by rw [hlen1] at hi; exact hi)
  obtain ⟨l2, c2, fr2⟩ := ih _ (.fieldList tgt rest) h2 hrun hS hc1 hcov1
  refine ⟨by rw [hlen1] at l2; exact l2, c2, fun i hni => ?_⟩
  rw [fr2 i hni,
    getElem_setProperty_ne h tgt name v i (fun hii => hni (by rw [hii]; exact hS))]

/-- Step lemma for an object-valued property inside the `extend` field
loop: the clone (an object of `S`) is recursively extended with the
source's object, stored into the target, and the loop continues. -/
theorem extendRun_frame_clone_step (S : Nat → Prop) (f : Nat)
    (ih : ∀ (h : Heap) (t : ExtTask) (h2 : Heap),
      extendRun f h t = some h2 → S t.tgt → HeapClosed h S →
      HeapCovers h S →
      h.length ≤ h2.length ∧ HeapClosed h2 S ∧ ∀ i, ¬ S i → h2[i]? = h[i]?)
    (h : Heap) (tgt clone c : Nat) (name : String) (rest : HObj) (h2 : Heap)
    (hrun : ((extendRun f h (.call clone [HVal.ref c])).bind fun hm =>
        extendRun f (setProperty hm tgt name (HVal.ref clone))
          (.fieldList tgt rest)) = some h2)
    (hS : S tgt) (hSc : S clone)
    (hc : HeapClosed h S) (hcov : HeapCovers h S) :
    h.length ≤ h2.length ∧ HeapClosed h2 S ∧
      ∀ i, ¬ S i → h2[i]? = h[i]? := by
  rw [Option.bind_eq_some] at hrun
  obtain ⟨hm, e1, e2⟩ := hrun
  obtain ⟨l1, c1, fr1⟩ := ih h (.call clone [HVal.ref c]) hm e1 hSc hc hcov
  have hc2 := closed_setProperty S hm tgt name (HVal.ref clone) c1
    (fun o ho => by injection ho with ho; rw [← ho]; exact hSc)
  have hlen2 : (setProperty hm tgt name (HVal.ref clone)).length = hm.length :=
    length_setProperty hm tgt name (HVal.ref clone)
  have hcov2 : HeapCovers (setProperty hm tgt name (HVal.ref clone)) S :=
    covers_of_le S h _ hcov (by rw [hlen2]; exact l1)
  obtain ⟨l3, c3, fr3⟩ := ih _ (.fieldList tgt rest) h2 e2 hS hc2 hcov2
  rw [hlen2] at l3
  refine ⟨le_trans l1 l3, c3, fun i hni => ?_⟩
  rw [fr3 i hni,
    getElem_setProperty_ne hm tgt name (HVal.ref clone) i
      (fun hii => hni (by rw [hii]; exact hS)),
    fr1 i hni]

/-- Step lemma for an object-valued property whose clone is freshly
allocated: the fresh object is beyond the original heap, hence in `S`. -/
theorem extendRun_frame_alloc_step (S : Nat → Prop) (f : Nat)
    (ih : ∀ (h : Heap) (t : ExtTask) (h2 : Heap),
      extendRun f h t = some h2 → S t.tgt → HeapClosed h S →
      HeapCovers h S →
      h.length ≤ h2.length ∧ HeapClosed h2 S ∧ ∀ i, ¬ S i → h2[i]? = h[i]?)
    (h : Heap) (tgt c : Nat) (name : String) (rest : HObj) (h2 : Heap)
    (hrun : ((extendRun f (h ++ [[]]) (.call h.length [HVal.ref c])).bind
        fun hm =>
          extendRun f (setProperty hm tgt name (HVal.ref h.length))
            (.fieldList tgt rest)) = some h2)
    (hS : S tgt) (hc : HeapClosed h S) (hcov : HeapCovers h S) :
    h.length ≤ h2.length ∧ HeapClosed h2 S ∧
      ∀ i, ¬ S i → h2[i]? = h[i]? := by
  have hSl : S h.length := hcov h.length (le_refl _)
  have hc1 : HeapClosed (h ++ [[]]) S := closed_append_nil S h hc
  have hlen1 : (h ++ [([] : HObj)]).length = h.length + 1 := by simp
  have hcov1 : HeapCovers (h ++ [[]]) S := fun i hi =>
    hcov i (by rw [hlen1] at hi; omega)
  obtain ⟨l1, c1, fr1⟩ := extendRun_frame_clone_step S f ih (h ++ [[]]) tgt
    h.length c name rest h2 hrun hS hSl hc1 hcov1
  rw [hlen1] at l1
  refine ⟨by omega, c1, fun i hni => ?_⟩
  have hilt : i < h.length := by
    by_contra hge
    exact hni (hcov i (by omega))
  rw [fr1 i hni, List.getElem?_append_left hilt]

/-- Frame property of the `extend` interpreter: a run whose target lies in
a set `S` that is closed under references, contains the target, and
contains all fresh addresses, only grows the heap, keeps `S` closed, and
leaves every object outside `S` untouched. In particular `extend` never
writes to any source object. -/
theorem extendRun_frame (S : Nat → Prop) :
    ∀ (f : Nat) (h : Heap) (t : ExtTask) (h2 : Heap),
      extendRun f h t = some h2 → S t.tgt → HeapClosed h S →
      HeapCovers h S →
      h.length ≤ h2.length ∧ HeapClosed h2 S ∧
        ∀ i, ¬ S i → h2[i]? = h[i]? := by
  intro f
  induction f with
  | zero =>
      intro h t h2 hrun
      simp [extendRun] at hrun
  | succ f ih =>
      intro h t h2 hrun hS hc hcov
      cases t with
      | call tgt srcs =>
          exact ih h (.srcList tgt srcs) h2 hrun hS hc hcov
      | srcList tgt srcs =>
          cases srcs with
          | nil =>
              have heq : some h = some h2 := hrun
              injection heq with heq
              subst heq
              exact ⟨le_refl _, hc, fun i _ => rfl⟩
          | cons s rest =>
              cases s with
              | ref o =>
                  have heq : extendRun (Nat.succ f) h
                      (.srcList tgt (HVal.ref o :: rest)) =
                    (match h[o]? with
                     | some fs =>
                         (extendRun f h (.fieldList tgt fs)).bind fun h1 =>
                           extendRun f h1 (.srcList tgt rest)
                     | none => extendRun f h (.srcList tgt rest)) := rfl
                  cases hg : h[o]? with
                  | some fs =>
                      rw [heq, hg] at hrun
                      rw [Option.bind_eq_some] at hrun
                      obtain ⟨h1, e1, e2⟩ := hrun
                      obtain ⟨l1, c1, fr1⟩ :=
                        ih h (.fieldList tgt fs) h1 e1 hS hc hcov
                      obtain ⟨l2, c2, fr2⟩ :=
                        ih h1 (.srcList tgt rest) h2 e2 hS c1
                          (covers_of_le S h h1 hcov l1)
                      exact ⟨le_trans l1 l2, c2,
                        fun i hni => (fr2 i hni).trans (fr1 i hni)⟩
                  | none =>
                      rw [heq, hg] at hrun
                      exact ih h (.srcList tgt rest) h2 hrun hS hc hcov
              | null => exact ih h (.srcList tgt rest) h2 hrun hS hc hcov
              | bool b => exact ih h (.srcList tgt rest) h2 hrun hS hc hcov
              | num n => exact ih h (.srcList tgt rest) h2 hrun hS hc hcov
              | str s2 => exact ih h (.srcList tgt rest) h2 hrun hS hc hcov
      | fieldList tgt fs =>
          cases fs with
          | nil =>
              have heq : some h = some h2 := hrun
              injection heq with heq
              subst heq
              exact ⟨le_refl _, hc, fun i _ => rfl⟩
          | cons p rest =>
              obtain ⟨name, copy⟩ := p
              cases copy with
              | null =>
                  exact extendRun_frame_write_step S f ih h tgt name HVal.null
                    rest h2 hrun hS (fun o ho => by cases ho) hc hcov
              | bool b =>
                  exact extendRun_frame_write_step S f ih h tgt name
                    (HVal.bool b) rest h2 hrun hS (fun o ho => by cases ho)
                    hc hcov
              | num n =>
                  exact extendRun_frame_write_step S f ih h tgt name
                    (HVal.num n) rest h2 hrun hS (fun o ho => by cases ho)
                    hc hcov
              | str s2 =>
                  exact extendRun_frame_write_step S f ih h tgt name
                    (HVal.str s2) rest h2 hrun hS (fun o ho => by cases ho)
                    hc hcov
              | ref c =>
                  have heq : extendRun (Nat.succ f) h
                      (.fieldList tgt ((name, HVal.ref c) :: rest)) =
                    (if HVal.ref c = HVal.ref tgt then
                       extendRun f h (.fieldList tgt rest)
                     else
                       match getProperty h tgt name with
                       | some (HVal.ref s) =>
                           (extendRun f h (.call s [HVal.ref c])).bind
                             fun h3 =>
                               extendRun f
                                 (setProperty h3 tgt name (HVal.ref s))
                                 (.fieldList tgt rest)
                       | _ =>
                           (extendRun f (h ++ [[]])
                               (.call h.length [HVal.ref c])).bind
                             fun h3 =>
                               extendRun f
                                 (setProperty h3 tgt name
                                   (HVal.ref h.length))
                                 (.fieldList tgt rest)) := rfl
                  by_cases hcopy : HVal.ref c = HVal.ref tgt
                  · rw [heq, if_pos hcopy] at hrun
                    exact ih h (.fieldList tgt rest) h2 hrun hS hc hcov
                  · rw [heq, if_neg hcopy] at hrun
                    cases hgp : getProperty h tgt name with
                    | some v =>
                        cases v with
                        | ref s =>
                            rw [hgp] at hrun
                            have hSs : S s := by
                              unfold getProperty at hgp
                              cases hg2 : h[tgt]? with
                              | none => rw [hg2] at hgp; cases hgp
                              | some tfs =>
                                  rw [hg2] at hgp
                                  exact hc tgt tfs hS hg2 name s
                                    (lookupField_mem tfs name (HVal.ref s) hgp)
                            exact extendRun_frame_clone_step S f ih h tgt s c
                              name rest h2 hrun hS hSs hc hcov
                        | null =>
                            rw [hgp] at hrun
                            exact extendRun_frame_alloc_step S f ih h tgt c
                              name rest h2 hrun hS hc hcov
                        | bool b =>
                            rw [hgp] at hrun
                            exact extendRun_frame_alloc_step S f ih h tgt c
                              name rest h2 hrun hS hc hcov
                        | num n =>
                            rw [hgp] at hrun
                            exact extendRun_frame_alloc_step S f ih h tgt c
                              name rest h2 hrun hS hc hcov
                        | str s2 =>
                            rw [hgp] at hrun
                            exact extendRun_frame_alloc_step S f ih h tgt c
                              name rest h2 hrun hS hc hcov
                    | none =>
                        rw [hgp] at hrun
                        exact extendRun_frame_alloc_step S f ih h tgt c
                          name rest h2 hrun hS hc hcov

/-- Claim C8: no operation mutates the instance's stored default options.
The option merge `extend(true, {}, this.options, options || {})` shared by
every operation deep-merges into a freshly allocated target object, and
every pre-existing heap object — in particular the instance options object
and every object nested inside it — is unchanged by the call. -/
theorem C8_options_not_mutated (fuel : Nat) (h : Heap) (optionsId : Nat)
    (perCall : HVal) (h2 : Heap)
    (hrun : mergeIntoFreshTarget fuel h optionsId perCall = some h2) :
    ∀ i, i < h.length → h2[i]? = h[i]? := by
  have hclosed : HeapClosed (h ++ [[]]) (fun j => h.length ≤ j) := by
    intro j fs hSj hget name o hmem
    rcases Nat.lt_or_ge j (h ++ [([] : HObj)]).length with hlt | hge
    · have hj : j = h.length := by
        simp only [List.length_append, List.length_singleton] at hlt
        omega
      subst hj
      rw [List.getElem?_concat_length] at hget
      injection hget with hfs
      subst hfs
      simp at hmem
    · rw [List.getElem?_eq_none hge] at hget
      cases hget
  have hcovers : HeapCovers (h ++ [[]]) (fun j => h.length ≤ j) := by
    intro j hj
    simp only [List.length_append, List.length_singleton] at hj
    omega
  intro i hi
  obtain ⟨_, _, hfr⟩ := extendRun_frame (fun j => h.length ≤ j) fuel
    (h ++ [[]]) (.call h.length [HVal.ref optionsId, perCall]) h2 hrun
    (le_refl _) hclosed hcovers
  rw [hfr i (by omega), List.getElem?_append_left hi]

/-- Witness for C8 at a concrete heap: the instance options object (id 0,
with a nested object id 1) merged with a per-call options object (id 2);
the merge allocates a target (id 3) and a clone (id 4), and ids 0 and 1
are unchanged. -/
theorem C8_options_not_mutated_witness :
    mergeIntoFreshTarget 10
        [[("host", HVal.str "x"), ("nested", HVal.ref 1)],
         [("deep", HVal.num 1)], [("host", HVal.str "y")]] 0 (HVal.ref 2) =
      some
        [[("host", HVal.str "x"), ("nested", HVal.ref 1)],
         [("deep", HVal.num 1)], [("host", HVal.str "y")],
         [("host", HVal.str "y"), ("nested", HVal.ref 4)],
         [("deep", HVal.num 1)]] ∧
    ([[("host", HVal.str "x"), ("nested", HVal.ref 1)],
      [("deep", HVal.num 1)], [("host", HVal.str "y")],
      [("host", HVal.str "y"), ("nested", HVal.ref 4)],
      [("deep", HVal.num 1)]] : Heap)[0]? =
      some [("host", HVal.str "x"), ("nested", HVal.ref 1)] ∧
    ([[("host", HVal.str "x"), ("nested", HVal.ref 1)],
      [("deep", HVal.num 1)], [("host", HVal.str "y")],
      [("host", HVal.str "y"), ("nested", HVal.ref 4)],
      [("deep", HVal.num 1)]] : Heap)[1]? =
      some [("deep", HVal.num 1)] := by
  refine ⟨by decide, ?_, ?_⟩
  · exact (C8_options_not_mutated 10
      [[("host", HVal.str "x"), ("nested", HVal.ref 1)],
       [("deep", HVal.num 1)], [("host", HVal.str "y")]] 0 (HVal.ref 2)
      [[("host", HVal.str "x"), ("nested", HVal.ref 1)],
       [("deep", HVal.num 1)], [("host", HVal.str "y")],
       [("host", HVal.str "y"), ("nested", HVal.ref 4)],
       [("deep", HVal.num 1)]] (by decide) 0 (by decide)).trans (by decide)
  · exact (C8_options_not_mutated 10
      [[("host", HVal.str "x"), ("nested", HVal.ref 1)],
       [("deep", HVal.num 1)], [("host", HVal.str "y")]] 0 (HVal.ref 2)
      [[("host", HVal.str "x"), ("nested", HVal.ref 1)],
       [("deep", HVal.num 1)], [("host", HVal.str "y")],
       [("host", HVal.str "y"), ("nested", HVal.ref 4)],
       [("deep", HVal.num 1)]] (by decide) 1 (by decide)).trans (by decide)
